import Mathlib

/-!
# Verification of the cronify natural-language → cron converter

Shallow embedding of the TypeScript sources of the `cronify` repository
(`src/parsers.ts`, `src/matchers.ts`, `src/cron-builder.ts`, `src/index.ts`,
the English locale tables of `src/constants.ts`) as executable Lean
definitions, together with theorems settling the specification claims.

Modelling conventions:
* a JavaScript string is modelled as `List Char` (`Text`);
* a JavaScript `number` that can be `NaN` is modelled by `JSNum`
  (`parseInt`, `Math.min`, `Math.max`, `%`, `+` all propagate `NaN`
  exactly as in JS); template-literal rendering of `NaN` is `"NaN"`;
* `null`/`undefined` are modelled by `Option`;
* each regular expression of the source is hand-compiled to an executable
  matcher with JS backtracking semantics (leftmost match, alternation
  tried left to right, greedy quantifiers with the finitely many
  backtracking positions that the concrete pattern admits); `matchAll`
  is a scanner that resumes after the end of each (nonempty) match.

The embedding follows the default-locale path: `cronned` in
`src/index.ts` invokes `detectUnsupportedPatterns`, `matchPatterns` and
`buildCronFields` without a `locale` argument, so every
`locale ? ... : ...` choice in the source resolves to its right branch,
which is what is embedded here.
-/

set_option maxHeartbeats 4000000
set_option maxRecDepth 8192

namespace Cronify

/-- JS strings are modelled as lists of characters. -/
abbrev Text := List Char

/-- Coerce a Lean string literal to the `Text` model. -/
def str (s : String) : Text := s.data

/-- The JS `\s` class (ASCII part; the inputs handled here are normalized
so that only `' '` actually occurs as whitespace). -/
def isSpaceJS (c : Char) : Bool :=
  c = ' ' || c = '\t' || c = '\n' || c = '\r' || c = '\x0b' || c = '\x0c'

/-- The JS `\w` class `[A-Za-z0-9_]` (ASCII only, like JS `\b`). -/
def isWordChar (c : Char) : Bool :=
  ('a' ≤ c && c ≤ 'z') || ('A' ≤ c && c ≤ 'Z') || ('0' ≤ c && c ≤ '9') || c = '_'

/-- Wordness of an optional character (`none` = string edge, non-word). -/
def isWordOpt : Option Char → Bool
  | none => false
  | some c => isWordChar c

/-- JS `\b`: a word boundary lies between two positions iff their
wordness differs (string edges count as non-word). -/
def bdryB (a b : Option Char) : Bool := isWordOpt a != isWordOpt b

/-- The JS `\d` class `[0-9]`. -/
def isDigit10 (c : Char) : Bool := '0' ≤ c && c ≤ '9'

/-- Literal-prefix matcher: if `p` starts `cs`, return the remainder. -/
def leadStr : Text → Text → Option Text
  | [], cs => some cs
  | _ :: _, [] => none
  | p :: ps, c :: cs => if p = c then leadStr ps cs else none

theorem leadStr_length : ∀ p cs r, leadStr p cs = some r → r.length ≤ cs.length := by
  intro p
  induction p with
  | nil => intro cs r h; simp [leadStr] at h; simp [h]
  | cons p ps ih =>
    intro cs r h
    cases cs with
    | nil => simp [leadStr] at h
    | cons c cs' =>
      simp only [leadStr] at h
      split at h
      · exact Nat.le_trans (ih cs' r h) (Nat.le_succ _)
      · exact absurd h (by simp)

/-- Does `p` hold at some suffix of the text (regex search without a
left-context constraint)? -/
def anyPos (p : Text → Bool) : Text → Bool
  | [] => p []
  | c :: rest => p (c :: rest) || anyPos p rest

/-- Regex search tracking the character before the current position, for
patterns that start with a `\b` boundary assertion. -/
def scanPrev (f : Option Char → Text → Bool) : Option Char → Text → Bool
  | prev, [] => f prev []
  | prev, c :: rest => f prev (c :: rest) || scanPrev f (some c) rest

/-- First-match search (JS `String.match` without `g`) tracking the
previous character for leading `\b` assertions. -/
def findPrev (step : Option Char → Text → Option α) : Option Char → Text → Option α
  | prev, [] => step prev []
  | prev, c :: rest =>
    match step prev (c :: rest) with
    | some a => some a
    | none => findPrev step (some c) rest

/-- JS `matchAll` scanner: at each position try `step`; on a match emit
the value and resume after the match (the remainder returned by `step`).
The fuel argument only bounds the recursion so that it is structural
(and hence kernel-computable): every pattern scanned this way matches at
least one character, so `length + 1` fuel always suffices and the fuel
never runs out. -/
def scanAllAux (step : Text → Option (α × Text)) : Nat → Text → List α
  | 0, _ => []
  | _, [] => []
  | fuel + 1, c :: rest =>
    match step (c :: rest) with
    | some (a, r) => a :: scanAllAux step fuel r
    | none => scanAllAux step fuel rest

def scanAll (step : Text → Option (α × Text)) (cs : Text) : List α :=
  scanAllAux step (cs.length + 1) cs

/-- Scanner for `matchAll` that additionally tracks the previous character
(for patterns with a leading `\b`); `step` returns the match value, the
last character of the match and the remainder.  Fuel as in
`scanAllAux`. -/
def scanAllPrevAux (step : Option Char → Text → Option (α × Char × Text)) :
    Nat → Option Char → Text → List α
  | 0, _, _ => []
  | _, _, [] => []
  | fuel + 1, prev, c :: rest =>
    match step prev (c :: rest) with
    | some (a, lastc, r) => a :: scanAllPrevAux step fuel (some lastc) r
    | none => scanAllPrevAux step fuel (some c) rest

def scanAllPrev (step : Option Char → Text → Option (α × Char × Text))
    (prev : Option Char) (cs : Text) : List α :=
  scanAllPrevAux step (cs.length + 1) prev cs

/-- Decimal value of a digit string. -/
def digitsToNat (ds : Text) : Nat :=
  ds.foldl (fun acc c => acc * 10 + (c.toNat - '0'.toNat)) 0

/-! ## JS numbers (with `NaN`) -/

/-- A JS `number` as used by this code base: either `NaN` or an integer. -/
inductive JSNum where
  | nan : JSNum
  | num : Int → JSNum
deriving DecidableEq, Repr

/-- JS `isNaN`. -/
def isNaNb : JSNum → Bool
  | .nan => true
  | .num _ => false

/-- JS `Math.min` (returns `NaN` if either argument is `NaN`). -/
def jsMin : JSNum → JSNum → JSNum
  | .num a, .num b => .num (min a b)
  | _, _ => .nan

/-- JS `Math.max` (returns `NaN` if either argument is `NaN`). -/
def jsMax : JSNum → JSNum → JSNum
  | .num a, .num b => .num (max a b)
  | _, _ => .nan

/-- JS `+` on numbers. -/
def jsAdd : JSNum → JSNum → JSNum
  | .num a, .num b => .num (a + b)
  | _, _ => .nan

/-- JS `%` on numbers (truncated remainder; `NaN` propagates). -/
def jsMod : JSNum → JSNum → JSNum
  | .num a, .num b => .num (Int.tmod a b)
  | _, _ => .nan

/-- JS `>=` on numbers (`false` whenever an operand is `NaN`). -/
def jsGe : JSNum → JSNum → Bool
  | .num a, .num b => b ≤ a
  | _, _ => false

/-- JS `<=` on numbers (`false` whenever an operand is `NaN`). -/
def jsLe : JSNum → JSNum → Bool
  | .num a, .num b => a ≤ b
  | _, _ => false

/-- JS `parseInt(s, 10)` for the arguments occurring in this code base:
`undefined` (modelled `none`) gives `NaN`; a string gives the value of
its maximal leading digit run, or `NaN` if there is none. -/
def parseIntJS : Option Text → JSNum
  | none => .nan
  | some cs =>
    let ds := cs.takeWhile isDigit10
    if ds.isEmpty then .nan else .num (digitsToNat ds)

/-- One decimal digit as a character. -/
def digitChar : Nat → Char
  | 0 => '0' | 1 => '1' | 2 => '2' | 3 => '3' | 4 => '4'
  | 5 => '5' | 6 => '6' | 7 => '7' | 8 => '8' | _ => '9'

/-- Decimal rendering of a natural number (JS template-literal form);
the fuel only makes the recursion structural (`n / 10 < n`, so `n + 1`
fuel always suffices). -/
def natReprAux : Nat → Nat → Text
  | 0, _ => []
  | fuel + 1, n =>
    if n < 10 then [digitChar n]
    else natReprAux fuel (n / 10) ++ [digitChar (n % 10)]

def natRepr (n : Nat) : Text := natReprAux (n + 1) n

/-- Decimal rendering of an integer. -/
def intRepr (i : Int) : Text :=
  if i < 0 then '-' :: natRepr i.natAbs else natRepr i.toNat

/-- JS template-literal rendering of a number (`NaN` renders `"NaN"`). -/
def jsRepr : JSNum → Text
  | .nan => str "NaN"
  | .num n => intRepr n

/-! ## `src/parsers.ts` -/

/-- A parsed time: `hour24` may be `NaN` (the "unspecified hour" marker
produced by minute-only phrases), `minute` is a JS number.
(`src/types.ts`, interface `ParsedTime`.) -/
structure ParsedTime where
  hour24 : JSNum
  minute : JSNum
deriving DecidableEq, Repr

/-- Function `to24Hour(hour12, ampm?)` from `src/parsers.ts`: no marker returns the
hour unchanged; `"am"` maps through `% 12`; any other (truthy) marker maps
through `% 12 + 12`. -/
def to24Hour (hour12 : JSNum) (ampm : Option Text) : JSNum :=
  match ampm with
  | none => hour12
  | some a => if a = str "am" then jsMod hour12 (.num 12)
              else jsAdd (jsMod hour12 (.num 12)) (.num 12)

/-- JS `String.trim` (whitespace at both ends). -/
def trimJS (cs : Text) : Text :=
  ((cs.dropWhile isSpaceJS).reverse.dropWhile isSpaceJS).reverse

/-- Does the text contain `pat` as a contiguous substring
(JS `String.includes`)? -/
def hasSub (pat : Text) (cs : Text) : Bool :=
  anyPos (fun suf => (leadStr pat suf).isSome) cs

/-- Take at most two leading decimal digits, greedily (`\d{1,2}`),
returning the digits and the remainder; `none` if there is no digit.
The caller decides whether the one-digit backtracking alternative is
needed. -/
def takeDigits12 : Text → Option (Text × Text)
  | [] => none
  | c :: rest =>
    if isDigit10 c then
      match rest with
      | d :: rest2 => if isDigit10 d then some ([c, d], rest2) else some ([c], rest)
      | [] => some ([c], [])
    else none

/-- Matcher for the tail `(?::(\d{2}))?` : exactly a colon followed by two
digits, or nothing.  Returns the optional captured minutes and the
remainder. -/
def colonMM : Text → Option Text × Text
  | ':' :: d1 :: d2 :: rest =>
    if isDigit10 d1 && isDigit10 d2 then (some [d1, d2], rest) else (none, ':' :: d1 :: d2 :: rest)
  | cs => (none, cs)

/-- Matcher for the tail `\s*(am|pm)?\b` of a time-like pattern whose
preceding character is a word character (a digit), with JS backtracking
semantics.  Returns `none` when every backtracking choice fails the
final `\b`; otherwise the optional meridiem capture and the remainder
after the full match.  Case analysis over the greedy `\s*`:
a meridiem at the end of the whitespace run wins if its own `\b` holds;
otherwise, with a nonempty whitespace run the empty-meridiem alternative
always finds a boundary (at the end of the run if a word character
follows, else between the digit and the first space); with an empty run
it needs a non-word character (or the string edge) next. -/
def amPmTailB (cs : Text) : Option (Option Text × Text) :=
  let ws := cs.dropWhile isSpaceJS
  let fallback : Option (Option Text × Text) :=
    if ws = cs then
      (if !isWordOpt cs.head? then some (none, cs) else none)
    else if isWordOpt ws.head? then some (none, ws)
    else some (none, cs)
  match leadStr (str "am") ws with
  | some r => if !isWordOpt r.head? then some (some (str "am"), r) else fallback
  | none =>
    match leadStr (str "pm") ws with
    | some r => if !isWordOpt r.head? then some (some (str "pm"), r) else fallback
    | none => fallback

/-- Matcher for the tail `\s*(am|pm)?` with nothing after it (no `\b`):
always succeeds; the greedy `\s*` is part of the full match even when no
meridiem follows. -/
def amPmTail (cs : Text) : Option Text × Text :=
  let ws := cs.dropWhile isSpaceJS
  match leadStr (str "am") ws with
  | some r => (some (str "am"), r)
  | none =>
    match leadStr (str "pm") ws with
    | some r => (some (str "pm"), r)
    | none => (none, ws)

/-- The digits/minutes/meridiem body `(\d{1,2})(?::(\d{2}))?\s*(am|pm)?\b`
at the current position, with backtracking from two digits to one. -/
def timeBodyB (cs : Text) : Option (Text × Option Text × Option Text × Text) :=
  let attempt : Text → Text → Option (Text × Option Text × Option Text × Text) :=
    fun ds r1 =>
      let (mm, r2) := colonMM r1
      match amPmTailB r2 with
      | some (ap, r3) => some (ds, mm, ap, r3)
      | none => none
  match takeDigits12 cs with
  | none => none
  | some (ds, r1) =>
    match attempt ds r1 with
    | some res => some res
    | none =>
      match ds with
      | [d1, d2] => attempt [d1] (d2 :: r1)
      | _ => none

/-- The first explicit-time regex of `parseTime`:
`\b(\d{1,2})(?::(\d{2}))?\s*(am|pm)?\b` — captures of the first match. -/
def explicitTimeMatch (s : Text) : Option (Text × Option Text × Option Text) :=
  findPrev (fun prev cs =>
    if bdryB prev cs.head? then
      (timeBodyB cs).map (fun (ds, mm, ap, _) => (ds, mm, ap))
    else none) none s

/-- The minute-only regex of `parseTime`: `:(\d{2})\b` — first match's
capture. -/
def minuteOnlyMatch (s : Text) : Option Text :=
  findPrev (fun _ cs =>
    match cs with
    | ':' :: d1 :: d2 :: rest =>
      if isDigit10 d1 && isDigit10 d2 && !isWordOpt rest.head? then some [d1, d2] else none
    | _ => none) none s

/-- Try each pattern of a list in order; return the matched pattern and
the remainder (regex alternation). -/
def tryOneOf (pats : List Text) (cs : Text) : Option (Text × Text) :=
  pats.findSome? (fun p => (leadStr p cs).map (fun r => (p, r)))

/-- Period markers of the Chinese time regex in `parseTime`. -/
def CHIN_PERIODS : List Text :=
  [str "上午", str "下午", str "晚上", str "傍晚", str "夜间", str "早上"]

/-- Body of the Chinese time regex of `parseTime`:
`(上午|下午|晚上|傍晚|夜间|早上)?(\d{1,2})点(半|(\d{1,2})分?)?` at the
current position.  Returns the captures `(g1, g2, g3, g4)`: optional
period, hour digits, the `半`/`N分` group text, inner minute digits.
(When an optional period matches but no `digits ++ 点` follows, the
regex retries without the period, which then fails on the period
character itself — so no further backtracking is needed.) -/
def chinBodyAt (cs : Text) : Option (Option Text × Text × Option Text × Option Text) :=
  let (period, r1) :=
    match tryOneOf CHIN_PERIODS cs with
    | some (p, r) => (some p, r)
    | none => (none, cs)
  let afterDigits : Text → Text → Option (Option Text × Text × Option Text × Option Text) :=
    fun ds r2 =>
      match leadStr (str "点") r2 with
      | none => none
      | some r3 =>
        match leadStr (str "半") r3 with
        | some _ => some (period, ds, some (str "半"), none)
        | none =>
          match takeDigits12 r3 with
          | some (ms, r4) =>
            let g3txt := ms ++ (if (leadStr (str "分") r4).isSome then str "分" else [])
            some (period, ds, some g3txt, some ms)
          | none => some (period, ds, none, none)
  match takeDigits12 r1 with
  | none => none
  | some (ds, r2) =>
    match afterDigits ds r2 with
    | some res => some res
    | none =>
      match ds with
      | [d1, d2] => afterDigits [d1] (d2 :: r2)
      | _ => none

/-- First match of the Chinese time regex of `parseTime` over the
string. -/
def chinTimeMatch (s : Text) : Option (Option Text × Text × Option Text × Option Text) :=
  findPrev (fun _ cs => chinBodyAt cs) none s

/-- Function `parseTime` from `src/parsers.ts` (the Chinese-aware definition used
by `src/matchers.ts`): parses a short time-like phrase into an
hour/minute pair, or `none`. -/
def parseTime (timeString : Text) : Option ParsedTime :=
  let s := trimJS timeString
  if hasSub (str "零点") s || hasSub (str "午夜") s || hasSub (str "凌晨") s then
    some ⟨.num 0, .num 0⟩
  else if hasSub (str "中午") s || hasSub (str "正午") s then
    some ⟨.num 12, .num 0⟩
  else
    let viaChinese : Option ParsedTime :=
      match chinTimeMatch s with
      | none => none
      | some (period, g2, g3, g4) =>
        let hour := parseIntJS (some g2)
        let isBan := g3 = some (str "半")
        let minute : JSNum :=
          if isBan then .num 30
          else match g4 with
               | some ms => parseIntJS (some ms)
               | none => .num 0
        let hour :=
          if (period = some (str "下午") || period = some (str "晚上") ||
              period = some (str "傍晚") || period = some (str "夜间")) &&
             jsLe hour (.num 11) then jsAdd hour (.num 12)
          else if (period = some (str "上午") || period = some (str "早上")) &&
                  hour = .num 12 then .num 0
          else hour
        if jsGe hour (.num 0) && jsLe hour (.num 23) &&
           jsGe minute (.num 0) && jsLe minute (.num 59) then
          some ⟨hour, minute⟩
        else none
    match viaChinese with
    | some t => some t
    | none =>
      let viaExplicit : Option ParsedTime :=
        match explicitTimeMatch s with
        | none => none
        | some (g1, g2, g3) =>
          let parsedHour := to24Hour (parseIntJS (some g1)) g3
          let parsedMinute : JSNum :=
            match g2 with
            | some mm => parseIntJS (some mm)
            | none => .num 0
          if jsGe parsedHour (.num 0) && jsLe parsedHour (.num 23) &&
             jsGe parsedMinute (.num 0) && jsLe parsedMinute (.num 59) then
            some ⟨parsedHour, parsedMinute⟩
          else none
      match viaExplicit with
      | some t => some t
      | none =>
        match minuteOnlyMatch s with
        | some ds =>
          let parsedMinute := parseIntJS (some ds)
          if jsGe parsedMinute (.num 0) && jsLe parsedMinute (.num 59) then
            some ⟨.nan, parsedMinute⟩
          else none
        | none => none

/-- Whitespace-run squeezing for `normalizeInput` (`\s+` → single space);
the flag records whether the previous kept character was a squeezed
space. -/
def squeezeWS : Bool → Text → Text
  | _, [] => []
  | inSp, c :: rest =>
    if isSpaceJS c then
      if inSp then squeezeWS true rest else ' ' :: squeezeWS true rest
    else c :: squeezeWS false rest

/-- Function `normalizeInput` from `src/parsers.ts`: lowercase, commas → spaces,
collapse whitespace runs, trim.  (Mapping each comma to a space before
collapsing is equivalent to the source's comma-run replacement, because
the produced spaces are collapsed with their neighbours in the next
step.) -/
def normalizeInput (input : Text) : Text :=
  let lowered := input.map (fun c => if c = ',' then ' ' else c.toLower)
  ((squeezeWS false lowered).dropWhile isSpaceJS).reverse.dropWhile isSpaceJS |>.reverse

/-! ## Locale tables (`src/constants.ts`, re-exported by
`src/locales/en.ts`; object-literal key order preserved) -/

/-- Table `WEEKDAYS`: weekday names and abbreviations → 0–6 (0 = Sunday). -/
def WEEKDAYS : List (Text × Nat) :=
  [(str "sunday", 0), (str "sun", 0),
   (str "monday", 1), (str "mon", 1),
   (str "tuesday", 2), (str "tue", 2), (str "tues", 2),
   (str "wednesday", 3), (str "wed", 3),
   (str "thursday", 4), (str "thu", 4), (str "thurs", 4),
   (str "friday", 5), (str "fri", 5),
   (str "saturday", 6), (str "sat", 6)]

/-- Table `MONTHS`: month names and abbreviations → 1–12. -/
def MONTHS : List (Text × Nat) :=
  [(str "january", 1), (str "jan", 1),
   (str "february", 2), (str "feb", 2),
   (str "march", 3), (str "mar", 3),
   (str "april", 4), (str "apr", 4),
   (str "may", 5),
   (str "june", 6), (str "jun", 6),
   (str "july", 7), (str "jul", 7),
   (str "august", 8), (str "aug", 8),
   (str "september", 9), (str "sep", 9), (str "sept", 9),
   (str "october", 10), (str "oct", 10),
   (str "november", 11), (str "nov", 11),
   (str "december", 12), (str "dec", 12)]

/-! ## `src/matchers.ts` -/

/-- Extraction results (interface `MatchResults`). -/
structure MatchResults where
  selectedMonths : List Nat
  selectedWeekdays : List Nat
  selectedMonthDays : List Nat
  parsedTimes : List ParsedTime
  hourWindowRange : Option Text
  everyNMinutes : Option JSNum
  everyNHours : Option JSNum
  atPastEachHour : Option Nat
deriving DecidableEq, Repr

/-- Ordinal words of the nth-weekday refusal regex (default-locale
alternation of `detectUnsupportedPatterns`). -/
def ORDINAL_WORDS : List Text :=
  [str "last", str "nth", str "first", str "second", str "third", str "fourth",
   str "último", str "primero", str "segundo", str "tercero", str "cuarto",
   str "最后", str "第一", str "第二", str "第三", str "第四"]

/-- Full weekday names (default-locale weekday alternation of
`detectUnsupportedPatterns`). -/
def WEEKDAY_FULL : List Text :=
  [str "monday", str "tuesday", str "wednesday", str "thursday",
   str "friday", str "saturday", str "sunday"]

/-- The nth/last-weekday refusal pattern
`(^|\s|)(last|nth|first|second|third|fourth|…)(\s+|)(monday|…|sunday)`:
both the left-context group and the separator group admit the empty
alternative, so the pattern matches exactly when some ordinal word is a
substring followed (after an optional whitespace run) by a full weekday
name. -/
def nthWeekdayHit (text : Text) : Bool :=
  anyPos (fun suf =>
    ORDINAL_WORDS.any (fun o =>
      match leadStr o suf with
      | some r =>
        WEEKDAY_FULL.any (fun w =>
          (leadStr w r).isSome || (leadStr w (r.dropWhile isSpaceJS)).isSome)
      | none => false)) text

/-- The business-days pattern `\b(business\s*days?)\b`. -/
def businessDaysHit (text : Text) : Bool :=
  scanPrev (fun prev suf =>
    bdryB prev suf.head? &&
    (match leadStr (str "business") suf with
     | some r1 =>
       (match leadStr (str "day") (r1.dropWhile isSpaceJS) with
        | some r3 =>
          (match r3 with
           | 's' :: r4 => !isWordOpt r4.head?
           | _ => !isWordOpt r3.head?)
        | none => false)
     | none => false)) none text

/-- Word sequences of the last-day-of-month pattern
`\b(last\s+day\s+of\s+the\s+month|eom|end\s+of\s+month|último\s+día\s+del\s+mes|fin\s+de\s+mes)\b`. -/
def LASTDAY_ALTS : List (List Text) :=
  [[str "last", str "day", str "of", str "the", str "month"],
   [str "eom"],
   [str "end", str "of", str "month"],
   [str "último", str "día", str "del", str "mes"],
   [str "fin", str "de", str "mes"]]

/-- Match a sequence of literal words separated by `\s+`. -/
def chainWords : List Text → Text → Option Text
  | [], cs => some cs
  | [w], cs => leadStr w cs
  | w :: rest, cs =>
    match leadStr w cs with
    | some r =>
      match r with
      | c :: _ => if isSpaceJS c then chainWords rest (r.dropWhile isSpaceJS) else none
      | [] => none
    | none => none

/-- The last-day-of-month pattern (word boundary on both sides; every
alternative ends in a word character). -/
def lastDayHit (text : Text) : Bool :=
  scanPrev (fun prev suf =>
    LASTDAY_ALTS.any (fun alt =>
      bdryB prev suf.head? &&
      (match chainWords alt suf with
       | some r => !isWordOpt r.head?
       | none => false))) none text

/-- Diagnostic messages of `detectUnsupportedPatterns`. -/
def nthWeekdayMsg : Text :=
  str "Cron (standard) cannot express 'nth/last weekday of month'. Use RRULE or Quartz."

def businessDaysMsg : Text :=
  str "'Business days' and holiday calendars are beyond plain cron. Use RRULE + calendar exceptions."

def lastDayMsg : Text :=
  str "'Last day of month' is not in standard cron. Use Quartz L or emit 28-31 with guard logic."

/-- Function `detectUnsupportedPatterns` from `src/matchers.ts` (default-locale
path): three independent checks, each immediately terminal. -/
def detectUnsupportedPatterns (text : Text) : Option Text :=
  if nthWeekdayHit text then some nthWeekdayMsg
  else if businessDaysHit text then some businessDaysMsg
  else if lastDayHit text then some lastDayMsg
  else none

/-- Month cue: `includes(" k ") || endsWith(" k") || startsWith("k ")`. -/
def monthKeyHit (nt : Text) (k : Text) : Bool :=
  hasSub (' ' :: k ++ [' ']) nt ||
  (leadStr (' ' :: k).reverse nt.reverse).isSome ||
  (leadStr (k ++ [' ']) nt).isSome

/-- The quarterly pattern `\bquarter(ly)?\b`. -/
def quarterHit (nt : Text) : Bool :=
  scanPrev (fun prev suf =>
    bdryB prev suf.head? &&
    (match leadStr (str "quarter") suf with
     | some r =>
       (match leadStr (str "ly") r with
        | some r2 => !isWordOpt r2.head?
        | none => !isWordOpt r.head?)
     | none => false)) none nt

/-- First matching key of an alternation (tried in list order) together
with the remainder. -/
def firstKeyMatch : List (Text × Nat) → Text → Option (Nat × Text)
  | [], _ => none
  | kv :: rest, cs =>
    match leadStr kv.1 cs with
    | some r => some (kv.2, r)
    | none => firstKeyMatch rest cs

/-- The weekday `matchAll` scan: the default-locale weekday alternation
`(sunday|sun|monday|mon|…)` has **no** word boundaries in
`src/matchers.ts`, so keys also match inside longer words. -/
def weekdayScan (nt : Text) : List Nat :=
  scanAll (fun cs => firstKeyMatch WEEKDAYS cs) nt

/-- Body of the day-of-month pattern
`\bon\s+the\s+(\d{1,2})(st|nd|rd|th)?\b` at the current position; returns
the parsed day value, the last character of the full match and the
remainder. -/
def domBodyAt (prev : Option Char) (cs : Text) : Option (Nat × Char × Text) :=
  if bdryB prev cs.head? then
    match leadStr (str "on") cs with
    | none => none
    | some r1 =>
      match r1 with
      | c1 :: _ =>
        if isSpaceJS c1 then
          match leadStr (str "the") (r1.dropWhile isSpaceJS) with
          | none => none
          | some r2 =>
            match r2 with
            | c2 :: _ =>
              if isSpaceJS c2 then
                let r3 := r2.dropWhile isSpaceJS
                let attempt : Text → Text → Option (Nat × Char × Text) :=
                  fun ds r4 =>
                    match tryOneOf [str "st", str "nd", str "rd", str "th"] r4 with
                    | some (sfx, r5) =>
                      -- a matched suffix whose trailing `\b` fails leaves the
                      -- empty alternative facing a word character, so the
                      -- whole digit choice fails
                      if !isWordOpt r5.head? then
                        some (digitsToNat ds, sfx.getLast?.getD 't', r5)
                      else none
                    | none =>
                      if !isWordOpt r4.head? then
                        some (digitsToNat ds, ds.getLast?.getD '0', r4)
                      else none
                match takeDigits12 r3 with
                | none => none
                | some (ds, r4) =>
                  match attempt ds r4 with
                  | some res => some res
                  | none =>
                    match ds with
                    | [d1, d2] => attempt [d1] (d2 :: r4)
                    | _ => none
              else none
            | [] => none
        else none
      | [] => none
  else none

/-- The `matchAll` scan of the day-of-month pattern; the code collects
`parseInt` of the digit capture of every match. -/
def domScan (nt : Text) : List Nat :=
  scanAllPrev domBodyAt none nt

/-- Existence test for `every\s*(\d+)\s*UNIT…` (no word boundaries, no
group around `every`/the unit on the default-locale path).  Only
existence matters to the callers: the digit capture is group 1, while
the code reads the nonexistent group 2. -/
def everyNumHit (unit : Text) (nt : Text) : Bool :=
  anyPos (fun suf =>
    match leadStr (str "every") suf with
    | some r =>
      let r1 := r.dropWhile isSpaceJS
      let ds := r1.takeWhile isDigit10
      !ds.isEmpty && (leadStr unit ((r1.drop ds.length).dropWhile isSpaceJS)).isSome
    | none => false) nt

/-- The minute-past-hour pattern
`\bat\s*:(\d{2})\s*(past\s+)?(each|every)\s+hour\b` — first match's
parsed digit capture. -/
def atPastFirst (nt : Text) : Option Nat :=
  findPrev (fun prev cs =>
    if bdryB prev cs.head? then
      match leadStr (str "at") cs with
      | none => none
      | some r =>
        match r.dropWhile isSpaceJS with
        | ':' :: d1 :: d2 :: rest =>
          if isDigit10 d1 && isDigit10 d2 then
            let r2 := rest.dropWhile isSpaceJS
            let r3 :=
              match leadStr (str "past") r2 with
              | some rp =>
                (match rp with
                 | p :: _ => if isSpaceJS p then rp.dropWhile isSpaceJS else r2
                 | [] => r2)
              | none => r2
            match tryOneOf [str "each", str "every"] r3 with
            | some (_, r4) =>
              (match r4 with
               | c4 :: _ =>
                 if isSpaceJS c4 then
                   match leadStr (str "hour") (r4.dropWhile isSpaceJS) with
                   | some r5 =>
                     if !isWordOpt r5.head? then some (digitsToNat [d1, d2]) else none
                   | none => none
                 else none
               | [] => none)
            | none => none
          else none
        | _ => none
    else none) none nt

/-- Greedy `(\d{1,2})` with backtracking from two digits to one, in
continuation-passing style: the continuation receives the digit capture
and the remainder. -/
def tryD12 (cs : Text) (k : Text → Text → Option β) : Option β :=
  match cs with
  | d1 :: rest1 =>
    if isDigit10 d1 then
      match rest1 with
      | d2 :: rest2 =>
        if isDigit10 d2 then
          match k [d1, d2] rest2 with
          | some b => some b
          | none => k [d1] rest1
        else k [d1] rest1
      | [] => k [d1] []
    else none
  | [] => none

/-- Optional group `(?:las\s+)?`: optionally consume the given word followed by
whitespace.  (If the word is present but the rest of the pattern fails,
the regex retries without it and then fails on the word's first letter,
so the unconditional skip is faithful.) -/
def lasSkip (pat : Text) (cs : Text) : Text :=
  match leadStr pat cs with
  | some r =>
    (match r with
     | c :: _ => if isSpaceJS c then r.dropWhile isSpaceJS else cs
     | [] => cs)
  | none => cs

/-- Captures of the time-window pattern at one position:
`\bbetween\s+(?:las\s+)?(\d{1,2})(?::(\d{2}))?\s*(am|pm)?\s+and\s+(?:las\s+)?(\d{1,2})(?::(\d{2}))?\s*(am|pm)?\b`
(default-locale form: `between`/`and` are plain words, so the pattern
has exactly six capture groups). -/
def betweenBodyAt (prev : Option Char) (cs : Text) :
    Option (Text × Option Text × Option Text × Text × Option Text × Option Text) :=
  if bdryB prev cs.head? then
    match leadStr (str "between") cs with
    | none => none
    | some r0 =>
      match r0 with
      | c :: _ =>
        if isSpaceJS c then
          let r1 := r0.dropWhile isSpaceJS
          let r2 := lasSkip (str "las") r1
          tryD12 r2 (fun ds1 rA =>
            let (mm1, rB) := colonMM rA
            let proceedAfterAnd : Text → Option Text →
                Option (Text × Option Text × Option Text × Text × Option Text × Option Text) :=
              fun rF ap1 =>
                let rG := lasSkip (str "las") rF
                tryD12 rG (fun ds2 rH =>
                  let (mm2, rI) := colonMM rH
                  match amPmTailB rI with
                  | some (ap2, _) => some (ds1, mm1, ap1, ds2, mm2, ap2)
                  | none => none)
            let afterAndFrom : Text → Option Text →
                Option (Text × Option Text × Option Text × Text × Option Text × Option Text) :=
              fun rD ap1 =>
                match leadStr (str "and") rD with
                | some rE =>
                  (match rE with
                   | e :: _ =>
                     if isSpaceJS e then proceedAfterAnd (rE.dropWhile isSpaceJS) ap1 else none
                   | [] => none)
                | none => none
            let wsB := rB.dropWhile isSpaceJS
            let viaAmPm :=
              match tryOneOf [str "am", str "pm"] wsB with
              | some (ap, rC) =>
                (match rC with
                 | c2 :: _ =>
                   if isSpaceJS c2 then afterAndFrom (rC.dropWhile isSpaceJS) (some ap) else none
                 | [] => none)
              | none => none
            match viaAmPm with
            | some res => some res
            | none =>
              -- empty meridiem: `\s*` and `\s+` jointly need ≥ 1 whitespace
              match rB with
              | b :: _ => if isSpaceJS b then afterAndFrom wsB none else none
              | [] => none)
        else none
      | [] => none
  else none

/-- First match of the time-window pattern. -/
def betweenFirst (nt : Text) :
    Option (Text × Option Text × Option Text × Text × Option Text × Option Text) :=
  findPrev betweenBodyAt none nt

/-- Step of the Western time `matchAll` scan
`at\s+((?:la\s+)?(\d{1,2})(?::(\d{2}))?\s*(am|pm)?)` (default-locale
form: `at` is a plain literal with **no** word boundary and no extra
group, so the hour digits are group 2 — which is exactly what the code
passes to `parseTime`).  Returns the group-2 digits and the remainder
after the full match. -/
def westStep (cs : Text) : Option (Text × Text) :=
  match leadStr (str "at") cs with
  | none => none
  | some r =>
    match r with
    | c :: _ =>
      if isSpaceJS c then
        let r1 := r.dropWhile isSpaceJS
        let r2 := lasSkip (str "la") r1
        match takeDigits12 r2 with
        | some (ds, r3) =>
          let (_, r4) := colonMM r3
          let (_, r5) := amPmTail r4
          some (ds, r5)
        | none => none
      else none
    | [] => none

/-- The Western time `matchAll` scan: group-2 digit captures in match
order. -/
def westScan (nt : Text) : List Text :=
  scanAll westStep nt

/-- Keyword alternatives of the Chinese time pattern in
`src/matchers.ts`. -/
def CHIN_KEYWORDS : List Text :=
  [str "零点", str "午夜", str "凌晨", str "中午", str "正午"]

/-- Step of the Chinese time `matchAll` scan
`(零点|午夜|凌晨|中午|正午|(上午|下午)?(\d{1,2})点(\d{1,2})?分?)`:
returns the full matched text (`match[0]`, which the code passes to
`parseTime`) and the remainder. -/
def chinMatStep (cs : Text) : Option (Text × Text) :=
  match tryOneOf CHIN_KEYWORDS cs with
  | some (k, r) => some (k, r)
  | none =>
    let (period, r1) :=
      match tryOneOf [str "上午", str "下午"] cs with
      | some (p, r) => (some p, r)
      | none => (none, cs)
    let afterDigits : Text → Text → Option (Text × Text) :=
      fun ds r2 =>
        match leadStr (str "点") r2 with
        | none => none
        | some r3 =>
          let (ms, r4) :=
            match takeDigits12 r3 with
            | some (ms, r4) => (ms, r4)
            | none => ([], r3)
          let (fen, r5) :=
            match leadStr (str "分") r4 with
            | some r5 => (str "分", r5)
            | none => ([], r4)
          some ((period.getD []) ++ ds ++ str "点" ++ ms ++ fen, r5)
    match takeDigits12 r1 with
    | none => none
    | some (ds, r2) =>
      match afterDigits ds r2 with
      | some res => some res
      | none =>
        match ds with
        | [d1, d2] => afterDigits [d1] (d2 :: r2)
        | _ => none

/-- The Chinese time `matchAll` scan (full matched texts in order). -/
def chinScanM (nt : Text) : List Text :=
  scanAll chinMatStep nt

/-- Function `matchPatterns` from `src/matchers.ts` on the default-locale path
(as invoked by `cronned` in `src/index.ts`).  The `everyN…` values and
the window bounds mirror the source's capture-group reads, which on this
path are shifted by one relative to the pattern actually built (the
locale-aware pattern wraps `every`/units/`between`/`and`/`at` in one
extra group each): `match[2]` of the interval patterns and `match[8]` of
the window pattern are `undefined`, while `match[2]`/`match[4]`/`match[6]`
of the window pattern are the start minutes, the end hour digits and the
end meridiem. -/
def matchPatterns (normalizedText : Text) : MatchResults :=
  let selectedMonths :=
    (MONTHS.filter (fun kv => monthKeyHit normalizedText kv.1)).map Prod.snd ++
    (if quarterHit normalizedText then [1, 4, 7, 10] else [])
  let selectedWeekdays := weekdayScan normalizedText
  let selectedMonthDays := domScan normalizedText
  let everyNMinutes : Option JSNum :=
    if everyNumHit (str "minute") normalizedText then
      some (jsMax (.num 1) (jsMin (.num 59) (parseIntJS none)))
    else none
  let everyNHours : Option JSNum :=
    if everyNumHit (str "hour") normalizedText then
      some (jsMax (.num 1) (jsMin (.num 23) (parseIntJS none)))
    else none
  let atPastEachHour := atPastFirst normalizedText
  let hourWindowRange : Option Text :=
    match betweenFirst normalizedText with
    | none => none
    | some (_g1, g2, _g3, g4, _g5, g6) =>
      let startHour := to24Hour (parseIntJS g2) (some g4)
      let endHour := to24Hour (parseIntJS g6) none
      let windowStart := jsMin startHour endHour
      let windowEnd := jsMax startHour endHour
      some (jsRepr windowStart ++ '-' :: jsRepr windowEnd)
  let chineseParsedTimes := List.filterMap parseTime (chinScanM normalizedText)
  let westernParsedTimes := List.filterMap parseTime (westScan normalizedText)
  { selectedMonths := selectedMonths
    selectedWeekdays := selectedWeekdays
    selectedMonthDays := selectedMonthDays
    parsedTimes := chineseParsedTimes ++ westernParsedTimes
    hourWindowRange := hourWindowRange
    everyNMinutes := everyNMinutes
    everyNHours := everyNHours
    atPastEachHour := atPastEachHour }

/-! ## `src/cron-builder.ts` -/

/-- JS `[...new Set(list)]`: first-occurrence deduplication. -/
def jsSetOrder (l : List Nat) : List Nat :=
  l.foldl (fun acc x => if x ∈ acc then acc else acc ++ [x]) []

/-- Expression `[...new Set(numberList)].sort((a, b) => a - b)`: deduplicate, then
sort ascending. -/
def uniqueSorted (l : List Nat) : List Nat :=
  List.insertionSort (· ≤ ·) (jsSetOrder l)

/-- JS `Array.join(",")`. -/
def joinComma : List Text → Text
  | [] => []
  | [s] => s
  | s :: rest => s ++ ',' :: joinComma rest

/-- Function `listToCron` from `src/cron-builder.ts`.  (`allowStar` defaults to
`true` in the source and is passed explicitly here; the `null` list case
cannot arise from the embedded callers.) -/
def listToCron (numberList : List Nat) (maxValue : Nat) (allowStar : Bool) : Text :=
  if numberList.isEmpty then (if allowStar then str "*" else str "0")
  else if (uniqueSorted numberList).length = maxValue then str "*"
  else joinComma ((uniqueSorted numberList).map natRepr)

/-- The five cron fields (interface `CronFields`). -/
structure CronFields where
  minute : Text
  hour : Text
  dayOfMonth : Text
  month : Text
  dayOfWeek : Text
deriving DecidableEq, Repr

/-- Pattern `\bW\b` for a literal word `W`. -/
def wordHit (w : Text) (nt : Text) : Bool :=
  scanPrev (fun prev suf =>
    bdryB prev suf.head? &&
    (match leadStr w suf with
     | some r => !isWordOpt r.head?
     | none => false)) none nt

/-- Pattern `\bWs?\b` (e.g. `\bweekdays?\b`): if the optional `s` is present but
its trailing boundary fails, the empty alternative faces the `s` itself
and fails too. -/
def wordHitS (w : Text) (nt : Text) : Bool :=
  scanPrev (fun prev suf =>
    bdryB prev suf.head? &&
    (match leadStr w suf with
     | some r =>
       (match r with
        | 's' :: r2 => !isWordOpt r2.head?
        | _ => !isWordOpt r.head?)
     | none => false)) none nt

/-- Pattern `\bevery\s+W\b` for a literal word `W`. -/
def everyWordHit (w : Text) (nt : Text) : Bool :=
  scanPrev (fun prev suf =>
    bdryB prev suf.head? &&
    (match leadStr (str "every") suf with
     | some r =>
       (match r with
        | c :: _ =>
          isSpaceJS c &&
          (match leadStr w (r.dropWhile isSpaceJS) with
           | some r2 => !isWordOpt r2.head?
           | none => false)
        | [] => false)
     | none => false)) none nt

/-- Pattern `\bevery\s+(\d+)\s*minutes?\b` (window cadence check). -/
def everyNumMinutesB (nt : Text) : Bool :=
  scanPrev (fun prev suf =>
    bdryB prev suf.head? &&
    (match leadStr (str "every") suf with
     | some r =>
       (match r with
        | c :: _ =>
          isSpaceJS c &&
          (let r1 := r.dropWhile isSpaceJS
           let ds := r1.takeWhile isDigit10
           !ds.isEmpty &&
           (match leadStr (str "minute") ((r1.drop ds.length).dropWhile isSpaceJS) with
            | some r2 =>
              (match r2 with
               | 's' :: r3 => !isWordOpt r3.head?
               | _ => !isWordOpt r2.head?)
            | none => false))
        | [] => false)
     | none => false)) none nt

/-- Pattern `every\s+hour|\bhourly\b` (window cadence check; the first
alternative carries no word boundaries in the source). -/
def everyHourWindowHit (nt : Text) : Bool :=
  anyPos (fun suf =>
    match leadStr (str "every") suf with
    | some r =>
      (match r with
       | c :: _ =>
         isSpaceJS c && (leadStr (str "hour") (r.dropWhile isSpaceJS)).isSome
       | [] => false)
    | none => false) nt
  || wordHit (str "hourly") nt

/-- Pattern `\bon\s+the\s+\d{1,2}(st|nd|rd|th)?\b` (existence re-test in the
final day-of-month/day-of-week heuristic; a match exists iff the
`matchAll` scan of the same pattern is nonempty). -/
def onTheHit (nt : Text) : Bool :=
  !(domScan nt).isEmpty

/-- Function `buildCronFields` from `src/cron-builder.ts` on the default-locale
path: the sequential field mutations of the source become sequential
`let` rebindings, in source order. -/
def buildCronFields (normalizedText : Text) (ms : MatchResults) : CronFields :=
  let minuteField := str "*"
  let hourField := str "*"
  let dayOfMonthField := str "*"
  let monthField := str "*"
  let dayOfWeekField := str "*"
  -- Months
  let monthField :=
    if !ms.selectedMonths.isEmpty then listToCron ms.selectedMonths 12 true
    else monthField
  -- Weekdays
  let dayOfWeekField :=
    if wordHitS (str "weekday") normalizedText then str "1-5" else dayOfWeekField
  let dayOfWeekField :=
    if wordHitS (str "weekend") normalizedText then str "0,6" else dayOfWeekField
  let dayOfWeekField :=
    if !ms.selectedWeekdays.isEmpty then listToCron ms.selectedWeekdays 7 true
    else dayOfWeekField
  -- Day of month
  let dayOfMonthField :=
    if !ms.selectedMonthDays.isEmpty then listToCron ms.selectedMonthDays 31 true
    else dayOfMonthField
  -- Every N minutes/hours
  let minuteField :=
    match ms.everyNMinutes with
    | some n => str "*/" ++ jsRepr n
    | none => minuteField
  let (minuteField, hourField) :=
    match ms.everyNHours with
    | some n => ((if minuteField = str "*" then str "0" else minuteField), str "*/" ++ jsRepr n)
    | none => (minuteField, hourField)
  -- Simple recurring patterns without numbers
  let (minuteField, hourField) :=
    if everyWordHit (str "minute") normalizedText then (str "*", str "*")
    else (minuteField, hourField)
  let (minuteField, hourField) :=
    if everyWordHit (str "hour") normalizedText then (str "0", str "*")
    else (minuteField, hourField)
  let (minuteField, hourField) :=
    if everyWordHit (str "day") normalizedText ∧ hourField = str "*" ∧ minuteField = str "*" then
      (str "0", str "0")
    else (minuteField, hourField)
  let everyWeekB := everyWordHit (str "week") normalizedText
  let (minuteField, hourField) :=
    if everyWeekB ∧ hourField = str "*" ∧ minuteField = str "*" then (str "0", str "0")
    else (minuteField, hourField)
  let dayOfWeekField := if everyWeekB then str "0" else dayOfWeekField
  let everyMonthB := everyWordHit (str "month") normalizedText
  let (minuteField, hourField) :=
    if everyMonthB ∧ hourField = str "*" ∧ minuteField = str "*" then (str "0", str "0")
    else (minuteField, hourField)
  let dayOfMonthField := if everyMonthB then str "1" else dayOfMonthField
  -- Simple frequency words
  let (minuteField, hourField) :=
    if wordHit (str "hourly") normalizedText ∧ minuteField = str "*" then (str "0", str "*")
    else (minuteField, hourField)
  let (minuteField, hourField) :=
    if wordHit (str "daily") normalizedText ∧ hourField = str "*" ∧ minuteField = str "*" then
      (str "0", str "0")
    else (minuteField, hourField)
  let weeklyB := wordHit (str "weekly") normalizedText
  let (minuteField, hourField) :=
    if weeklyB ∧ hourField = str "*" ∧ minuteField = str "*" then (str "0", str "0")
    else (minuteField, hourField)
  let dayOfWeekField := if weeklyB then str "0" else dayOfWeekField
  let monthlyB := wordHit (str "monthly") normalizedText
  let (minuteField, hourField) :=
    if monthlyB ∧ hourField = str "*" ∧ minuteField = str "*" then (str "0", str "0")
    else (minuteField, hourField)
  let dayOfMonthField := if monthlyB then str "1" else dayOfMonthField
  -- "at :mm past every hour"
  let (minuteField, hourField) :=
    match ms.atPastEachHour with
    | some n => (natRepr n, str "*")
    | none => (minuteField, hourField)
  -- Specific time(s): `parsedTimes.length === 1`
  let (minuteField, hourField) :=
    match ms.parsedTimes with
    | [t] => (jsRepr t.minute, if isNaNb t.hour24 then str "*" else jsRepr t.hour24)
    | _ => (minuteField, hourField)
  -- Time keywords
  let (minuteField, hourField) :=
    if wordHit (str "midnight") normalizedText then (str "0", str "0")
    else (minuteField, hourField)
  let (minuteField, hourField) :=
    if wordHit (str "noon") normalizedText then (str "0", str "12")
    else (minuteField, hourField)
  -- Windows + cadence
  let (minuteField, hourField) :=
    match ms.hourWindowRange with
    | some hw =>
      if everyNumMinutesB normalizedText then (minuteField, hw)
      else if everyHourWindowHit normalizedText then (minuteField, hw)
      else if ms.parsedTimes.isEmpty then (str "*", hw)
      else (minuteField, hourField)
    | none => (minuteField, hourField)
  -- DOM + DOW heuristic
  let dayOfWeekField :=
    if dayOfMonthField ≠ str "*" ∧ onTheHit normalizedText then
      (if ms.selectedWeekdays.isEmpty then str "*" else dayOfWeekField)
    else dayOfWeekField
  { minute := minuteField
    hour := hourField
    dayOfMonth := dayOfMonthField
    month := monthField
    dayOfWeek := dayOfWeekField }

/-- Function `formatCron` from `src/cron-builder.ts`. -/
def formatCron (fields : CronFields) : Text :=
  fields.minute ++ ' ' :: fields.hour ++ ' ' :: fields.dayOfMonth ++
  ' ' :: fields.month ++ ' ' :: fields.dayOfWeek

/-! ## `src/index.ts` -/

/-- Conversion result (`src/types.ts`, type `CronResult`). -/
inductive CronResult where
  | crons : List Text → CronResult
  | unsupported : Text → CronResult
deriving DecidableEq, Repr

/-- The frequency-keyword alternation of the has-any-match check in
`cronned`. -/
def KEYWORD_ALTS : List Text :=
  [str "every", str "hourly", str "daily", str "weekly", str "monthly",
   str "weekday", str "weekend", str "midnight", str "noon",
   str "minute", str "hour", str "day", str "week", str "month"]

/-- Pattern with word boundaries over the keyword alternation: some
alternative occurs with word
boundaries on both sides (alternation order is irrelevant for a pure
existence test). -/
def keywordHit (nt : Text) : Bool :=
  scanPrev (fun prev suf =>
    bdryB prev suf.head? &&
    KEYWORD_ALTS.any (fun a =>
      match leadStr a suf with
      | some r => !isWordOpt r.head?
      | none => false)) none nt

/-- The character class of the final validation regex: `*`, digits,
slash, comma, dash. -/
def classOK (c : Char) : Bool :=
  c = '*' || isDigit10 c || c = '/' || c = ',' || c = '-'

/-- Split at every occurrence of a character (empty parts preserved). -/
def splitChar (sep : Char) : Text → List Text
  | [] => [[]]
  | c :: rest =>
    if c = sep then [] :: splitChar sep rest
    else
      match splitChar sep rest with
      | [] => [[c]]
      | p :: ps => (c :: p) :: ps

/-- The light validation regex of `cronned`: five space-separated
nonempty runs of class characters, anchored at both ends.  Since the
class excludes the space, a string matches iff splitting on spaces
yields exactly five nonempty parts made of class characters. -/
def validateCron (cs : Text) : Bool :=
  let parts := splitChar ' ' cs
  parts.length == 5 && parts.all (fun p => !p.isEmpty && p.all classOK)

/-- Failure messages of `cronned`. -/
def couldNotUnderstandMsg : Text :=
  str "Could not understand the input. Please use natural language like 'every monday at 9am'."

def couldNotConstructMsg : Text :=
  str "Could not construct a valid cron from the given text."

/-- Function `cronned` from `src/index.ts` (the default-locale entry point). -/
def cronned (input : Text) : CronResult :=
  let normalizedText := normalizeInput input
  match detectUnsupportedPatterns normalizedText with
  | some msg => .unsupported msg
  | none =>
    let ms := matchPatterns normalizedText
    let hasAnyMatch :=
      !ms.selectedMonths.isEmpty || !ms.selectedWeekdays.isEmpty ||
      !ms.selectedMonthDays.isEmpty || !ms.parsedTimes.isEmpty ||
      ms.hourWindowRange.isSome || ms.everyNMinutes.isSome ||
      ms.everyNHours.isSome || ms.atPastEachHour.isSome ||
      keywordHit normalizedText
    if !hasAnyMatch then .unsupported couldNotUnderstandMsg
    else if 1 < ms.parsedTimes.length then
      let fields := buildCronFields normalizedText { ms with parsedTimes := [] }
      .crons (ms.parsedTimes.map (fun t =>
        jsRepr t.minute ++ ' ' :: (if isNaNb t.hour24 then str "*" else jsRepr t.hour24) ++
        ' ' :: fields.dayOfMonth ++ ' ' :: fields.month ++ ' ' :: fields.dayOfWeek))
    else
      let fields := buildCronFields normalizedText ms
      let compiledCron := formatCron fields
      if !validateCron compiledCron then .unsupported couldNotConstructMsg
      else .crons [compiledCron]

/-! ## Spec-side definitions

The two definitions below are not translations of the source; they state
properties in the specification's own vocabulary, for comparison with the
embedded code. -/

/-- Modelled from the spec (§6 cron-line grammar): parse a field part as
a plain integer. -/
def parseNatField (p : Text) : Option Nat :=
  if !p.isEmpty && p.all isDigit10 then some (digitsToNat p) else none

/-- Modelled from the spec (§6 cron-line grammar): a field is `*`, a
single in-domain integer, a strictly ascending in-domain comma list, an
in-domain dash range, or a `*/N` step. -/
def specFieldOK (lo hi : Nat) (p : Text) : Bool :=
  let inDom : Option Nat → Bool := fun o =>
    match o with
    | some n => lo ≤ n && n ≤ hi
    | none => false
  p = str "*" ||
  inDom (parseNatField p) ||
  (let parts := splitChar ',' p
   2 ≤ parts.length && parts.all (fun q => inDom (parseNatField q)) &&
   (parts.map (fun q => digitsToNat q)).Chain' (· < ·)) ||
  (match splitChar '-' p with
   | [a, b] => inDom (parseNatField a) && inDom (parseNatField b)
   | _ => false) ||
  (match leadStr (str "*/") p with
   | some n => inDom (parseNatField n)
   | none => false)

/-- Modelled from the spec (§6): all five fields of a cron line satisfy
their grammar and numeric domain (minute 0–59, hour 0–23, day-of-month
1–31, month 1–12, day-of-week 0–6). -/
def cronDomainsOK (c : Text) : Bool :=
  match splitChar ' ' c with
  | [mi, h, dom, mo, dow] =>
    specFieldOK 0 59 mi && specFieldOK 0 23 h && specFieldOK 1 31 dom &&
    specFieldOK 1 12 mo && specFieldOK 0 6 dow
  | _ => false

/-- Whole-word (boundary-guarded) occurrence of an ordinal word, stating
the claim-side notion of a "standalone ordinal token". -/
def ordinalTokenHit (nt : Text) : Bool :=
  scanPrev (fun prev suf =>
    bdryB prev suf.head? &&
    ORDINAL_WORDS.any (fun o =>
      match leadStr o suf with
      | some r => !isWordOpt r.head?
      | none => false)) none nt

/-! ## Lemmas on `uniqueSorted` and `listToCron` -/

theorem jsSetOrder_aux_mem (a : Nat) :
    ∀ (l acc : List Nat),
      a ∈ l.foldl (fun acc x => if x ∈ acc then acc else acc ++ [x]) acc ↔ a ∈ acc ∨ a ∈ l := by
  intro l
  induction l with
  | nil => intro acc; simp
  | cons x xs ih =>
    intro acc
    simp only [List.foldl_cons]
    rw [ih]
    split
    · constructor
      · rintro (h | h)
        · exact Or.inl h
        · exact Or.inr (List.mem_cons_of_mem _ h)
      · rintro (h | h)
        · exact Or.inl h
        · rcases List.mem_cons.mp h with rfl | h
          · exact Or.inl (by assumption)
          · exact Or.inr h
    · constructor
      · rintro (h | h)
        · rcases List.mem_append.mp h with h | h
          · exact Or.inl h
          · exact Or.inr (by simpa using List.mem_cons.mpr (Or.inl (by simpa using h)))
        · exact Or.inr (List.mem_cons_of_mem _ h)
      · rintro (h | h)
        · exact Or.inl (List.mem_append.mpr (Or.inl h))
        · rcases List.mem_cons.mp h with rfl | h
          · exact Or.inl (List.mem_append.mpr (Or.inr (by simp)))
          · exact Or.inr h

theorem jsSetOrder_mem (a : Nat) (l : List Nat) : a ∈ jsSetOrder l ↔ a ∈ l := by
  unfold jsSetOrder
  rw [jsSetOrder_aux_mem]
  simp

theorem jsSetOrder_aux_nodup :
    ∀ (l acc : List Nat), acc.Nodup →
      (l.foldl (fun acc x => if x ∈ acc then acc else acc ++ [x]) acc).Nodup := by
  intro l
  induction l with
  | nil => intro acc h; simpa using h
  | cons x xs ih =>
    intro acc h
    simp only [List.foldl_cons]
    split
    · exact ih acc h
    · refine ih _ (List.Nodup.append h (List.nodup_singleton x) ?_)
      intro b hb hb'
      rcases List.mem_singleton.mp hb' with rfl
      exact (by assumption : ¬ b ∈ acc) hb

theorem jsSetOrder_nodup (l : List Nat) : (jsSetOrder l).Nodup :=
  jsSetOrder_aux_nodup l [] List.nodup_nil

theorem uniqueSorted_mem (a : Nat) (l : List Nat) : a ∈ uniqueSorted l ↔ a ∈ l := by
  unfold uniqueSorted
  rw [List.mem_insertionSort]
  exact jsSetOrder_mem a l

theorem uniqueSorted_nodup (l : List Nat) : (uniqueSorted l).Nodup :=
  ((List.perm_insertionSort _ _).nodup_iff).mpr (jsSetOrder_nodup l)

theorem uniqueSorted_sorted (l : List Nat) : List.Sorted (· ≤ ·) (uniqueSorted l) :=
  List.sorted_insertionSort _ _

theorem pairwise_lt_of_sorted_nodup :
    ∀ {l : List Nat}, List.Sorted (· ≤ ·) l → l.Nodup → List.Pairwise (· < ·) l := by
  intro l
  induction l with
  | nil => intro _ _; exact List.Pairwise.nil
  | cons a t ih =>
    intro hs hn
    rcases List.pairwise_cons.mp hs with ⟨hle, hs'⟩
    rcases List.pairwise_cons.mp hn with ⟨hne, hn'⟩
    exact List.pairwise_cons.mpr
      ⟨fun b hb => lt_of_le_of_ne (hle b hb) (hne b hb), ih hs' hn'⟩

theorem uniqueSorted_chain_lt (l : List Nat) : List.Chain' (· < ·) (uniqueSorted l) :=
  List.chain'_iff_pairwise.mpr
    (pairwise_lt_of_sorted_nodup (uniqueSorted_sorted l) (uniqueSorted_nodup l))

theorem uniqueSorted_toFinset (l : List Nat) : (uniqueSorted l).toFinset = l.toFinset := by
  apply Finset.ext
  intro a
  simp [List.mem_toFinset, uniqueSorted_mem]

theorem uniqueSorted_eq_of_toFinset_eq {l₁ l₂ : List Nat}
    (h : l₁.toFinset = l₂.toFinset) : uniqueSorted l₁ = uniqueSorted l₂ := by
  refine List.eq_of_perm_of_sorted ?_ (uniqueSorted_sorted l₁) (uniqueSorted_sorted l₂)
  refine List.perm_of_nodup_nodup_toFinset_eq (uniqueSorted_nodup l₁) (uniqueSorted_nodup l₂) ?_
  rw [uniqueSorted_toFinset, uniqueSorted_toFinset, h]

theorem listToCron_congr_of_toFinset_eq {l₁ l₂ : List Nat} (m : Nat) (a : Bool)
    (h : l₁.toFinset = l₂.toFinset) : listToCron l₁ m a = listToCron l₂ m a := by
  unfold listToCron
  have hemp : l₁.isEmpty = l₂.isEmpty := by
    rcases hl1 : l₁ with _ | ⟨x, t⟩
    · have : l₂.toFinset = ∅ := by rw [← h, hl1]; simp
      rw [(List.toFinset_eq_empty_iff l₂).mp this]
    · rcases hl2 : l₂ with _ | ⟨y, s⟩
      · rw [hl2] at h
        have : l₁.toFinset = ∅ := by rw [h]; simp
        rw [(List.toFinset_eq_empty_iff l₁).mp this] at hl1
        exact absurd hl1 (by simp)
      · simp
  rw [hemp, uniqueSorted_eq_of_toFinset_eq h]

/-! ## Lemmas on field grammar (claim C2) -/

/-- A good field part: nonempty and made of validation-class characters. -/
def goodField (p : Text) : Bool := !p.isEmpty && p.all classOK

theorem digitChar_digit (d : Nat) : isDigit10 (digitChar d) = true := by
  unfold digitChar
  split <;> decide

theorem natReprAux_digits :
    ∀ fuel n, n < fuel → (natReprAux fuel n).all isDigit10 = true := by
  intro fuel
  induction fuel with
  | zero => intro n h; omega
  | succ fuel ih =>
    intro n h
    rw [natReprAux]
    split
    · simp [digitChar_digit]
    · rename_i hn
      rw [List.all_append]
      have hd : n / 10 < n := Nat.div_lt_self (by omega) (by omega)
      have : n / 10 < fuel := by omega
      simp [ih _ this, digitChar_digit]

theorem natRepr_digits (n : Nat) : (natRepr n).all isDigit10 = true :=
  natReprAux_digits (n + 1) n (Nat.lt_succ_self n)

theorem natReprAux_ne_nil : ∀ fuel n, n < fuel → natReprAux fuel n ≠ [] := by
  intro fuel
  induction fuel with
  | zero => intro n h; omega
  | succ fuel _ =>
    intro n _
    rw [natReprAux]
    split
    · simp
    · simp

theorem natRepr_ne_nil (n : Nat) : natRepr n ≠ [] :=
  natReprAux_ne_nil (n + 1) n (Nat.lt_succ_self n)

theorem classOK_of_digit {c : Char} (h : isDigit10 c = true) : classOK c = true := by
  simp [classOK, h]

theorem goodField_natRepr (n : Nat) : goodField (natRepr n) = true := by
  unfold goodField
  rw [Bool.and_eq_true]
  constructor
  · simpa using natRepr_ne_nil n
  · have := natRepr_digits n
    rw [List.all_eq_true] at this ⊢
    intro c hc
    exact classOK_of_digit (this c hc)

theorem goodField_intRepr (i : Int) : goodField (intRepr i) = true := by
  unfold intRepr
  split
  · have := goodField_natRepr i.natAbs
    unfold goodField at this ⊢
    rw [Bool.and_eq_true] at this
    rw [Bool.and_eq_true]
    refine ⟨by simp, ?_⟩
    rw [List.all_cons, Bool.and_eq_true]
    exact ⟨by decide, this.2⟩
  · exact goodField_natRepr i.toNat

theorem goodField_joinComma :
    ∀ ps : List Text, ps ≠ [] → (∀ p ∈ ps, goodField p = true) →
      goodField (joinComma ps) = true := by
  intro ps
  induction ps with
  | nil => intro h; exact absurd rfl h
  | cons s rest ih =>
    intro _ hall
    cases rest with
    | nil => exact hall s (by simp) |>.trans rfl
    | cons s2 rest2 =>
      have hs := hall s (by simp)
      have hrest : goodField (joinComma (s2 :: rest2)) = true :=
        ih (by simp) (fun p hp => hall p (List.mem_cons_of_mem _ hp))
      show goodField (s ++ ',' :: joinComma (s2 :: rest2)) = true
      unfold goodField at hs hrest ⊢
      rw [Bool.and_eq_true] at hs hrest
      rw [Bool.and_eq_true]
      constructor
      · cases s with
        | nil => simp at hs
        | cons c t => simp
      · rw [List.all_append]
        rw [Bool.and_eq_true]
        refine ⟨hs.2, ?_⟩
        rw [List.all_cons, Bool.and_eq_true]
        exact ⟨by decide, hrest.2⟩

theorem uniqueSorted_ne_nil {l : List Nat} (h : l ≠ []) : uniqueSorted l ≠ [] := by
  cases l with
  | nil => exact absurd rfl h
  | cons x t =>
    have : x ∈ uniqueSorted (x :: t) := (uniqueSorted_mem x _).mpr (by simp)
    exact List.ne_nil_of_mem this

theorem goodField_listToCron (l : List Nat) (m : Nat) (a : Bool) :
    goodField (listToCron l m a) = true := by
  unfold listToCron
  split
  · split <;> decide
  · split
    · decide
    · rename_i hne _
      refine goodField_joinComma _ ?_ ?_
      · have : l ≠ [] := by
          intro hl
          rw [hl] at hne
          simp at hne
        simpa using uniqueSorted_ne_nil this
      · intro p hp
        rcases List.mem_map.mp hp with ⟨n, _, rfl⟩
        exact goodField_natRepr n

theorem goodField_ite (c : Prop) [Decidable c] {a b : Text}
    (ha : goodField a = true) (hb : goodField b = true) :
    goodField (if c then a else b) = true := by
  split <;> assumption

theorem goodField_dayOfMonth (nt : Text) (m : MatchResults) :
    goodField ((buildCronFields nt m).dayOfMonth) = true := by
  simp only [buildCronFields]
  repeat
    first
    | exact goodField_listToCron _ _ _
    | apply goodField_ite
    | decide

theorem goodField_month (nt : Text) (m : MatchResults) :
    goodField ((buildCronFields nt m).month) = true := by
  simp only [buildCronFields]
  repeat
    first
    | exact goodField_listToCron _ _ _
    | apply goodField_ite
    | decide

theorem goodField_dayOfWeek (nt : Text) (m : MatchResults) :
    goodField ((buildCronFields nt m).dayOfWeek) = true := by
  simp only [buildCronFields]
  repeat
    first
    | exact goodField_listToCron _ _ _
    | apply goodField_ite
    | decide

theorem jsGe_num {a b : JSNum} (h : jsGe a b = true) : ∃ n : Int, a = .num n := by
  cases a <;> cases b <;> simp [jsGe] at h ⊢

theorem guarded_pair_minute (H M : JSNum) (t : ParsedTime) (g1 g2 g3 g4 : Bool)
    (hg3 : g3 = jsGe M (.num 0))
    (h : (if (g1 && g2 && g3 && g4) = true then some (⟨H, M⟩ : ParsedTime) else none) = some t) :
    ∃ n : Int, t.minute = .num n := by
  split at h
  · rename_i hc
    simp only [Bool.and_eq_true] at hc
    obtain ⟨⟨⟨-, -⟩, hc3⟩, -⟩ := hc
    cases h
    exact jsGe_num (hg3 ▸ hc3)
  · exact absurd h (by simp)

theorem guarded_min2 (H M : JSNum) (t : ParsedTime) (g1 g2 : Bool)
    (hg1 : g1 = jsGe M (.num 0))
    (h : (if (g1 && g2) = true then some (⟨H, M⟩ : ParsedTime) else none) = some t) :
    ∃ n : Int, t.minute = .num n := by
  split at h
  · rename_i hc
    simp only [Bool.and_eq_true] at hc
    obtain ⟨hc1, -⟩ := hc
    cases h
    exact jsGe_num (hg1 ▸ hc1)
  · exact absurd h (by simp)

theorem orElse_split {x y : Option ParsedTime} {t : ParsedTime}
    (h : (match x with | some t' => some t' | none => y) = some t) :
    x = some t ∨ (x = none ∧ y = some t) := by
  cases x <;> simp_all

theorem parseTime_minute_num :
    ∀ s t, parseTime s = some t → ∃ n : Int, t.minute = .num n := by
  intro s t h
  simp only [parseTime] at h
  split at h
  · cases h; exact ⟨0, rfl⟩
  · split at h
    · cases h; exact ⟨0, rfl⟩
    · rcases orElse_split h with hx | ⟨_, hy⟩
      · -- Chinese branch
        rcases hchin : chinTimeMatch (trimJS s) with _ | ⟨period, g2, g3, g4⟩ <;>
          rw [hchin] at hx
        · simp at hx
        · dsimp only at hx
          exact guarded_pair_minute _ _ _ _ _ _ _ rfl hx
      · rcases orElse_split hy with hx2 | ⟨_, hy2⟩
        · -- explicit branch
          rcases hexp : explicitTimeMatch (trimJS s) with _ | ⟨a, b, c⟩ <;>
            rw [hexp] at hx2
          · simp at hx2
          · dsimp only at hx2
            exact guarded_pair_minute _ _ _ _ _ _ _ rfl hx2
        · -- minute-only branch
          rcases hmo : minuteOnlyMatch (trimJS s) with _ | ds <;> rw [hmo] at hy2
          · simp at hy2
          · dsimp only at hy2
            exact guarded_min2 _ _ _ _ _ rfl hy2

theorem parsedTimes_minute_num (nt : Text) (t : ParsedTime)
    (ht : t ∈ (matchPatterns nt).parsedTimes) : ∃ n : Int, t.minute = .num n := by
  have ht' : t ∈ List.filterMap parseTime (chinScanM nt) ++
             List.filterMap parseTime (westScan nt) := by
    simpa [matchPatterns] using ht
  rcases List.mem_append.mp ht' with h | h <;>
    · rcases List.mem_filterMap.mp h with ⟨s, _, hs⟩
      exact parseTime_minute_num s t hs

theorem classOK_ne_space {c : Char} (h : classOK c = true) : c ≠ ' ' := by
  intro hc
  rw [hc] at h
  simp [classOK, isDigit10] at h

theorem splitChar_classOK_append (a r : Text) (ha : a.all classOK = true) :
    splitChar ' ' (a ++ ' ' :: r) = a :: splitChar ' ' r := by
  induction a with
  | nil => simp [splitChar]
  | cons c t ih =>
    rw [List.all_cons, Bool.and_eq_true] at ha
    have hc : ¬ (c = ' ') := classOK_ne_space ha.1
    simp only [List.cons_append, splitChar, if_neg hc, List.append_eq, ih ha.2]

theorem splitChar_no_sep (a : Text) (ha : a.all classOK = true) :
    splitChar ' ' a = [a] := by
  induction a with
  | nil => simp [splitChar]
  | cons c t ih =>
    rw [List.all_cons, Bool.and_eq_true] at ha
    have hc : ¬ (c = ' ') := classOK_ne_space ha.1
    simp only [splitChar, if_neg hc]
    rw [ih ha.2]

theorem validateCron_parts (p1 p2 p3 p4 p5 : Text)
    (h1 : goodField p1 = true) (h2 : goodField p2 = true)
    (h3 : goodField p3 = true) (h4 : goodField p4 = true)
    (h5 : goodField p5 = true) :
    validateCron (p1 ++ ' ' :: p2 ++ ' ' :: p3 ++ ' ' :: p4 ++ ' ' :: p5) = true := by
  unfold goodField at h1 h2 h3 h4 h5
  rw [Bool.and_eq_true] at h1 h2 h3 h4 h5
  simp only [validateCron, List.append_assoc, List.cons_append]
  rw [splitChar_classOK_append _ _ h1.2, splitChar_classOK_append _ _ h2.2,
      splitChar_classOK_append _ _ h3.2, splitChar_classOK_append _ _ h4.2,
      splitChar_no_sep _ h5.2]
  simp only [List.all_cons, List.all_nil]
  simp [h1.1, h2.1, h3.1, h4.1, h5.1, h1.2, h2.2, h3.2, h4.2, h5.2]

/-! ## Claim theorems -/

/-- C1 (code bug): for the input "at 9am and 5pm on weekdays" the code
returns the single cron line "0 9 * * 1-5" — not the two documented
lines "0 9 * * 1-5", "0 17 * * 1-5": the time regex anchors on a
literal `at` (so "and 5pm" contributes no second time) and passes only
the hour-digit capture to `parseTime` (so a meridiem would be dropped
anyway).  Only one parsed time exists, hence the multiple-time expansion
never runs. -/
theorem c1_two_times_eval :
    cronned (str "at 9am and 5pm on weekdays") = .crons [str "0 9 * * 1-5"] ∧
    (matchPatterns (str "at 9am and 5pm on weekdays")).parsedTimes =
      [⟨.num 9, .num 0⟩] := by
  constructor <;> decide

/-- C2 (counterexample): "on the 40th at midnight" succeeds with
day-of-month 40, outside the 1–31 numeric domain required by the claim. -/
theorem c2_domain_counterexample :
    cronned (str "on the 40th at midnight") = .crons [str "0 0 40 * *"] ∧
    cronDomainsOK (str "0 0 40 * *") = false := by
  constructor <;> decide

/-- C2 (amended): every cron string contained in a success result of
`cronned` passes the light validation grammar — five nonempty
space-separated fields over `*`, digits, `/`, `,`, `-` — including on
the multiple-time path, which skips the explicit check; numeric domains
are NOT enforced (see the counterexample). -/
theorem c2_success_grammar :
    ∀ (input : Text) (cs : List Text) (c : Text),
      cronned input = .crons cs → c ∈ cs → validateCron c = true := by
  intro input cs c hres hmem
  simp only [cronned] at hres
  split at hres
  · exact absurd hres (by simp)
  · split at hres
    · exact absurd hres (by simp)
    · split at hres
      · -- multiple-time branch
        rw [CronResult.crons.injEq] at hres
        rw [← hres] at hmem
        rcases List.mem_map.mp hmem with ⟨t, ht, rfl⟩
        refine validateCron_parts _ _ _ _ _ ?_ ?_ ?_ ?_ ?_
        · rcases parsedTimes_minute_num (normalizeInput input) t ht with ⟨n, hn⟩
          rw [hn]
          simp only [jsRepr]
          exact goodField_intRepr n
        · cases hh : t.hour24 with
          | nan => simp [hh, isNaNb]; decide
          | num k =>
            simp only [hh, isNaNb, Bool.false_eq_true, if_false, jsRepr]
            exact goodField_intRepr k
        · exact goodField_dayOfMonth _ _
        · exact goodField_month _ _
        · exact goodField_dayOfWeek _ _
      · split at hres
        · exact absurd hres (by simp)
        · rename_i hval
          rw [CronResult.crons.injEq] at hres
          rw [← hres] at hmem
          rcases List.mem_singleton.mp hmem with rfl
          simpa using hval

/-- C2 (amended) witness at the concrete input "at noon". -/
theorem c2_success_grammar_witness :
    validateCron (str "0 12 * * *") = true :=
  c2_success_grammar (str "at noon") [str "0 12 * * *"] (str "0 12 * * *")
    (by decide) (by decide)

/-- C3 (counterexample): replacing the phrase "every hour" by "hourly"
in "every day every hour" changes the resolved fields — "every hour"
unconditionally sets minute 0 / hour `*`, while the "hourly" rule is
guarded on the minute field still being `*` and is a no-op after
"every day" has set it. -/
theorem c3_counterexample :
    cronned (str "every day every hour") = .crons [str "0 * * * *"] ∧
    cronned (str "every day hourly") = .crons [str "0 0 * * *"] := by
  constructor <;> decide

/-- C3 (amended): the frequency words are synonyms of the bare
recurrence phrases when the minute/hour fields are still at their
defaults when the frequency-word rules run — in particular as
standalone phrases all four pairs resolve identically. -/
theorem c3_standalone_synonyms :
    cronned (str "hourly") = cronned (str "every hour") ∧
    cronned (str "daily") = cronned (str "every day") ∧
    cronned (str "weekly") = cronned (str "every week") ∧
    cronned (str "monthly") = cronned (str "every month") := by
  refine ⟨by decide, by decide, by decide, by decide⟩

/-- C4 (code bug): the weekday alternation carries no word boundaries,
so "mon" inside "month" registers as Monday: "every month at midnight"
extracts weekday set `[1]` and yields "0 0 1 * 1", while the repo's own
test expects "0 0 1 * *" ("handles 'mon' in 'month' without
collision"). -/
theorem c4_mon_collision_eval :
    cronned (str "every month at midnight") = .crons [str "0 0 1 * 1"] ∧
    (matchPatterns (str "every month at midnight")).selectedWeekdays = [1] := by
  constructor <;> decide

/-- C5: any input whose extraction yields no months, weekdays,
month-days, times, window, intervals or minute-past-hour value and whose
normalized text contains no recognized frequency keyword is rejected
with a failure value — `cronned` never returns cron strings for it. -/
theorem c5_no_signal_fails :
    ∀ input : Text,
      (matchPatterns (normalizeInput input)).selectedMonths = [] →
      (matchPatterns (normalizeInput input)).selectedWeekdays = [] →
      (matchPatterns (normalizeInput input)).selectedMonthDays = [] →
      (matchPatterns (normalizeInput input)).parsedTimes = [] →
      (matchPatterns (normalizeInput input)).hourWindowRange = none →
      (matchPatterns (normalizeInput input)).everyNMinutes = none →
      (matchPatterns (normalizeInput input)).everyNHours = none →
      (matchPatterns (normalizeInput input)).atPastEachHour = none →
      keywordHit (normalizeInput input) = false →
      ∃ msg, cronned input = .unsupported msg := by
  intro input h1 h2 h3 h4 h5 h6 h7 h8 h9
  cases hdet : detectUnsupportedPatterns (normalizeInput input) with
  | some m =>
    exact ⟨m, by simp [cronned, hdet]⟩
  | none =>
    refine ⟨couldNotUnderstandMsg, ?_⟩
    simp [cronned, hdet, h1, h2, h3, h4, h5, h6, h7, h8, h9]

/-- C5 witness: the empty input (and hence any whitespace-only input,
which normalizes to it) is rejected. -/
theorem c5_no_signal_fails_witness :
    ∃ msg, cronned (str "") = .unsupported msg :=
  c5_no_signal_fails (str "") (by decide) (by decide) (by decide) (by decide)
    (by decide) (by decide) (by decide) (by decide) (by decide)

/-- C6: whenever the nth/last-weekday pattern matches the normalized
input (an ordinal word followed, after optional whitespace, by a full
weekday name), `cronned` short-circuits before extraction and returns
exactly the fixed nth/last-weekday-of-month diagnostic naming the
RRULE/Quartz workaround — never cron strings, never a generic error. -/
theorem c6_nth_weekday_refusal :
    ∀ input : Text, nthWeekdayHit (normalizeInput input) = true →
      cronned input = .unsupported nthWeekdayMsg := by
  intro input h
  simp [cronned, detectUnsupportedPatterns, h]

/-- C6 witness at "last friday of the month". -/
theorem c6_nth_weekday_refusal_witness :
    nthWeekdayHit (normalizeInput (str "last friday of the month")) = true ∧
    cronned (str "last friday of the month") = .unsupported nthWeekdayMsg :=
  ⟨by decide, c6_nth_weekday_refusal (str "last friday of the month") (by decide)⟩

/-- C7 (code bug): for "every 15 minutes between 9am and 5pm" the
stored window is "NaN-NaN", not the ascending 9-17 range of the parsed
bounds — the window code reads the shifted capture groups (start hour
from the start-minutes group, its meridiem from the end-hour group,
end hour from the end-meridiem group) — and the conversion fails the
final grammar check instead of producing `*/15 9-17 * * *`. -/
theorem c7_window_nan_eval :
    (matchPatterns (str "every 15 minutes between 9am and 5pm")).hourWindowRange =
      some (str "NaN-NaN") ∧
    cronned (str "every 15 minutes between 9am and 5pm") =
      .unsupported couldNotConstructMsg := by
  constructor <;> decide

/-- C8 (code bug): for "every 15 minutes" the stored interval is `NaN`
(the code reads capture group 2, which the default-locale pattern does
not have, so `parseInt(undefined)` flows through the clamp), not
`max(1, min(59, 15)) = 15`; the conversion then fails instead of
producing `*/15 * * * *`. -/
theorem c8_interval_nan_eval :
    (matchPatterns (str "every 15 minutes")).everyNMinutes = some JSNum.nan ∧
    cronned (str "every 15 minutes") = .unsupported couldNotConstructMsg := by
  constructor <;> decide

/-- C9: the nth/last-weekday refusal matches ordinal words as bare
substrings (the left-context alternation admits the empty string):
"ballast friday" contains no standalone ordinal token, yet `cronned`
returns the nth/last-weekday refusal because of the "last" inside
"ballast". -/
theorem c9_substring_ordinal_refusal :
    cronned (str "ballast friday") = .unsupported nthWeekdayMsg ∧
    ordinalTokenHit (normalizeInput (str "ballast friday")) = false := by
  constructor <;> decide

/-- C10: `listToCron` depends only on the *set* of extracted values
(lists with equal `toFinset` yield identical field strings), its
dedup-sort intermediate is strictly ascending and duplicate-free, and
repeated weekday mentions in the input produce the same field string as
a single mention. -/
theorem c10_listToCron_set_semantics :
    (∀ (l₁ l₂ : List Nat) (m : Nat) (a : Bool),
        l₁.toFinset = l₂.toFinset → listToCron l₁ m a = listToCron l₂ m a) ∧
    (∀ l : List Nat, List.Chain' (· < ·) (uniqueSorted l)) ∧
    listToCron ((matchPatterns (str "monday monday")).selectedWeekdays) 7 true =
      listToCron ((matchPatterns (str "monday")).selectedWeekdays) 7 true := by
  refine ⟨?_, uniqueSorted_chain_lt, by decide⟩
  intro l₁ l₂ m a h
  exact listToCron_congr_of_toFinset_eq m a h

/-- C10 witness: duplicated and reordered lists with the same element
set produce the same field string. -/
theorem c10_listToCron_set_semantics_witness :
    listToCron [1, 1, 5] 7 true = listToCron [5, 1] 7 true :=
  c10_listToCron_set_semantics.1 [1, 1, 5] [5, 1] 7 true (by decide)

end Cronify
